import Mathlib

/-!
Shallow embedding of the overlay filesystem in `src/fuse-bgzip.c`.

Paths are lists of characters (C strings).  The backing store is an abstract
predicate `fs : Path → Bool` giving the success of `fstatat` probes; other
external collaborators (the bgzf codec, the on-disk caches, `openat`) are
oracles recorded in explicit world structures.  Each definition is a direct
translation of the corresponding C function.
-/

namespace FuseBgzip

abbrev Path := List Char

/-- The data suffix ".gz" used by `need_bgzip_uncompress` and friends. -/
def dotGz : Path := ['.', 'g', 'z']

/-- The index suffix ".gzi". -/
def dotGzi : Path := ['.', 'g', 'z', 'i']

/-- The combined suffix ".gz.gzi" tested in `fuse_bgzip_readdir`. -/
def dotGzGzi : Path := ['.', 'g', 'z', '.', 'g', 'z', 'i']

/-- First stripping step of `need_bgzip_uncompress` (lines 108-111):
if the name is longer than 4 characters and its last 4 characters are ".gzi",
cut them off. -/
def strip_gzi (s : Path) : Path :=
  if 4 < s.length ∧ s.drop (s.length - 4) = dotGzi then s.take (s.length - 4) else s

/-- Second stripping step of `need_bgzip_uncompress` (lines 112-115):
if the name is longer than 3 characters and its last 3 characters are ".gz",
cut them off. -/
def strip_gz (s : Path) : Path :=
  if 3 < s.length ∧ s.drop (s.length - 3) = dotGz then s.take (s.length - 3) else s

/-- The candidate logical name computed on a decision-cache miss:
at most one trailing ".gzi", then at most one trailing ".gz" is removed. -/
def stripCandidate (s : Path) : Path := strip_gz (strip_gzi s)

/-- The probe sequence of `need_bgzip_uncompress` on a cache miss
(lines 117-130), returning the verdict together with the number of
`fstatat` probes issued.  `ret` starts at 1 and is set to 0 on the first
failing condition; probe failures are treated as absence, no error is
raised. -/
def need_miss (fs : Path → Bool) (file : Path) : Bool × Nat :=
  let stripped := stripCandidate file
  if fs stripped then (false, 1)
  else if fs (stripped ++ dotGz) = false then (false, 2)
  else if fs (stripped ++ dotGz ++ dotGzi) = false then (false, 3)
  else (true, 3)

/-- The TDB decision cache: an association list from the queried path to the
stored one-byte verdict. -/
abbrev Tdb := List (Path × Bool)

/-- `tdb_fetch`: look up the key. -/
def tdb_fetch (t : Tdb) (k : Path) : Option Bool := List.lookup k t

/-- `tdb_store` with `TDB_REPLACE`: the new binding shadows any old one. -/
def tdb_store (t : Tdb) (k : Path) (v : Bool) : Tdb := (k, v) :: t

/-- Result of one `need_bgzip_uncompress` call: the verdict, the cache after
the call, the number of backing-store probes and the number of cache
stores performed during the call. -/
structure NeedResult where
  verdict : Bool
  cache : Tdb
  probes : Nat
  stores : Nat
deriving DecidableEq

/-- `need_bgzip_uncompress` (lines 90-137): on a cache hit the stored byte is
returned with no probing and no store; on a miss the verdict is computed by
`need_miss` and stored under the original, unstripped path. -/
def need_bgzip_uncompress (fs : Path → Bool) (t : Tdb) (file : Path) : NeedResult :=
  match tdb_fetch t file with
  | some v => ⟨v, t, 0, 0⟩
  | none =>
    let r := need_miss fs file
    ⟨r.1, tdb_store t file r.1, r.2, 1⟩

/-- `fuse_bgzip_readdir` (lines 386-434): fold over the raw directory
entries; an entry whose full relative path needs synthesis is emitted under
its logical name exactly when the raw entry itself carries the ".gz.gzi"
suffix, and suppressed otherwise; entries that do not need synthesis are
emitted unchanged. -/
def fuse_bgzip_readdir (fs : Path → Bool) (t : Tdb) (dirPath : Path)
    (entries : List Path) : List Path × Tdb :=
  entries.foldl (fun st name =>
    let full := if dirPath = ['.'] then name else dirPath ++ '/' :: name
    let r := need_bgzip_uncompress fs st.2 full
    if r.verdict then
      if 7 < name.length ∧ name.drop (name.length - 7) = dotGzGzi then
        (st.1 ++ [name.take (name.length - 7)], r.cache)
      else (st.1, r.cache)
    else (st.1 ++ [name], r.cache)) ([], t)

/-- Byte `i` of the little-endian encoding of `x` (one byte read out of a
`uint64_t` buffer on a little-endian host, as assumed by the `le64toh`
calls in `get_unzipped_size`). -/
def u64byte (x i : Nat) : Nat := x / 256 ^ i % 256

/-- The 8-byte little-endian encoding of a 64-bit value. -/
def le64 (x : Nat) : List Nat :=
  [u64byte x 0, u64byte x 1, u64byte x 2, u64byte x 3,
   u64byte x 4, u64byte x 5, u64byte x 6, u64byte x 7]

/-- One 16-byte index record: compressed offset then uncompressed offset
(the layout stated in the comment at lines 257-273). -/
def serializeRecord (r : Nat × Nat) : List Nat := le64 r.1 ++ le64 r.2

/-- Concatenation of the serialized records. -/
def flatRecords (rs : List (Nat × Nat)) : List Nat :=
  rs.foldr (fun r acc => serializeRecord r ++ acc) []

/-- A whole ".gzi" index file under the layout documented in
`get_unzipped_size`: an 8-byte count followed by the records. -/
def serializeIndex (n : Nat) (rs : List (Nat × Nat)) : List Nat :=
  le64 n ++ flatRecords rs

/-- One byte of a `pread` of 8 bytes at offset `off` into a little-endian
`uint64_t` buffer whose previous value was `prev`: bytes past the end of the
file are not written, so the buffer keeps the corresponding byte of `prev`
(this models the unchecked `read`/`pread` return values at lines 281-283). -/
def preadByte (file : List Nat) (prev off i : Nat) : Nat :=
  if off + i < file.length then file.getD (off + i) 0 % 256 else u64byte prev i

/-- The `uint64_t` value held by the buffer after the 8-byte `pread`. -/
def preadU64 (file : List Nat) (prev off : Nat) : Nat :=
  preadByte file prev off 0 + 256 * preadByte file prev off 1 +
  65536 * preadByte file prev off 2 + 16777216 * preadByte file prev off 3 +
  4294967296 * preadByte file prev off 4 + 1099511627776 * preadByte file prev off 5 +
  281474976710656 * preadByte file prev off 6 +
  72057594037927936 * preadByte file prev off 7

/-- The start offset computed from the index file at lines 274-285:
read the 8-byte count `n` from offset 0 (into a buffer initialized to 0),
then `pread` 8 bytes at byte offset `n * 16` into the same buffer. -/
def gzi_start_pos (file : List Nat) : Nat :=
  preadU64 file (preadU64 file 0 0) (preadU64 file 0 0 * 16)

/-- `strrchr`-based basename used for the cache file names (lines 224-229):
the characters after the last '/'. -/
def basename (p : Path) : Path := (p.reverse.takeWhile (fun c => c != '/')).reverse

/-- Oracles consumed by `get_unzipped_size`.  `sizeCache b` is the value
successfully read from the cache file `<cachedir>/<b>.size` (`none` covers
both a failed `open` and a short read); `gzOpen` and `dopen` are the
outcomes of `openat(dir_fd, "<path>.gz")` and `bgzf_dopen`; `indexBytes` is
the content of the cached index file `<cachedir>/<basename>.gz.gzi` after
`load_index_file` ran, or `none` when that `open` fails; `scan s` is the
total number of bytes the `bgzf_read` loop delivers after `bgzf_useek` to
uncompressed offset `s`, or `none` when some read returns an error. -/
structure GzWorld where
  sizeCache : Path → Option Nat
  gzOpen : Bool
  dopen : Bool
  indexBytes : Option (List Nat)
  scan : Nat → Option Nat

/-- `get_unzipped_size` (lines 207-317).  Returns the computed size (0 means
"could not be determined", per the function's own comment) paired with the
uncompressed offset passed to `bgzf_useek`, `none` when no seek happens. -/
def get_unzipped_size (w : GzWorld) (path : Path) : Nat × Option Nat :=
  match w.sizeCache (basename path) with
  | some v => (v, none)
  | none =>
    if w.gzOpen = false then (0, none)
    else if w.dopen = false then (0, none)
    else
      match w.indexBytes with
      | none => (0, none)
      | some file =>
        let start := gzi_start_pos file
        match w.scan start with
        | none => (0, some start)
        | some bytes => (start + bytes, some start)

/-- File metadata as far as the embedding needs it. -/
structure Stat where
  st_size : Nat
  st_mode : Nat
  st_mtime : Nat
deriving DecidableEq

def ENOENT : Nat := 2

/-- Success of an `fstatat` probe. -/
def statOk (r : Except Nat Stat) : Bool :=
  match r with
  | .ok _ => true
  | .error _ => false

/-- `fuse_bgzip_getattr` (lines 319-351).  `st` is the `fstatat` oracle,
`gus` the result of `get_unzipped_size`.  Returns the reply together with
the decision cache after the call. -/
def fuse_bgzip_getattr (st : Path → Except Nat Stat) (gus : Path → Nat) (t : Tdb)
    (path0 : Path) : Except Nat Stat × Tdb :=
  let path := if path0.head? = some '/' then path0.tail else path0
  match st path with
  | .ok s => (.ok s, t)
  | .error e =>
    if e = ENOENT then
      let r := need_bgzip_uncompress (fun q => statOk (st q)) t path
      if r.verdict then
        match st (path ++ dotGz) with
        | .error e2 => (.error e2, r.cache)
        | .ok s2 => (.ok { s2 with st_size := gus path }, r.cache)
      else (.error e, r.cache)
    else (.error e, t)

/-- `struct file` (lines 60-63): a bgzf stream handle or a raw descriptor
with -1 as the "absent" sentinel. -/
structure file where
  fh : Option Nat
  fd : Int
deriving DecidableEq

/-- Outcomes of the two bgzf calls made by one `fuse_bgzip_read` on a
decompressing handle: `bgzf_useek` returns -1 with an errno on failure,
`bgzf_read` returns -1 with an errno on failure and the byte count
otherwise. -/
structure BgzfOps where
  useekRet : Int
  useekErrno : Nat
  readRet : Int
  readErrno : Nat
deriving DecidableEq

/-- The decompressing branch of `fuse_bgzip_read` (lines 365-379). -/
def bgzf_read_result (o : BgzfOps) : Int :=
  if o.useekRet = -1 then -(o.useekErrno : Int)
  else if o.readRet = -1 then -(o.readErrno : Int)
  else o.readRet

/-- The passthrough branch of `fuse_bgzip_read` (lines 381-383). -/
def pread_result (r : Int) (e : Nat) : Int := if r = -1 then -(e : Int) else r

/-- `fuse_bgzip_read` (lines 353-384): dispatch on whether the handle wraps
a bgzf stream. -/
def fuse_bgzip_read (f : file) (o : BgzfOps) (preadRet : Int) (preadErrno : Nat) : Int :=
  if f.fh.isSome then bgzf_read_result o else pread_result preadRet preadErrno

/-- Oracles consumed by `fuse_bgzip_open`: the `fstatat` outcome for the
literal path, the decision-cache verdict, the `openat` of the ".gz" file,
the `bgzf_dopen` result, and the `openat` used by the passthrough branch. -/
structure OpenWorld where
  statRes : Except Nat Unit
  needRes : Bool
  gzOpenFd : Option Nat
  dopenRes : Option Nat
  rawOpenFd : Except Nat Nat

/-- `fuse_bgzip_open` (lines 436-488).  The allocated `struct file` starts
as `{fh := NULL, fd := -1}`; the synthesized branch fills only `fh`, the
passthrough branch fills only `fd`. -/
def fuse_bgzip_open (w : OpenWorld) : Except Nat file :=
  let passthrough : Except Nat file :=
    match w.rawOpenFd with
    | .error e => .error e
    | .ok fd => .ok { fh := none, fd := (fd : Int) }
  match w.statRes with
  | .error e =>
    if e = ENOENT ∧ w.needRes = true then
      match w.gzOpenFd with
      | none => .error ENOENT
      | some _ =>
        match w.dopenRes with
        | none => .error ENOENT
        | some h => .ok { fh := some h, fd := -1 }
    else passthrough
  | .ok _ => passthrough

/-- `fuse_bgzip_release` (lines 490-512): returns which of the two wrapped
resources gets closed (`bgzf_close` on the stream, `close` on the raw
descriptor). -/
def fuse_bgzip_release (f : Option file) : Bool × Bool :=
  match f with
  | none => (false, false)
  | some f => (f.fh.isSome, !(f.fd == -1))

/-! Concrete instances used by the witnesses and counterexamples. -/

/-- A concrete logical name, "data". -/
def pData : Path := ['d', 'a', 't', 'a']

/-- A backing store where only "data.gz" and "data.gz.gzi" exist. -/
def exFs : Path → Bool := fun s =>
  s == pData ++ dotGz || s == pData ++ dotGz ++ dotGzi

/-- The index file of the C1 scenario: count 3 followed by four records, the
last being {compressed 9000, uncompressed 50000}. -/
def exIdx : List Nat :=
  serializeIndex 3 [(0, 0), (3000, 10000), (6000, 30000), (9000, 50000)]

/-- A size-resolution world with a cold cache and the C1 index. -/
def exWorldC1 : GzWorld :=
  { sizeCache := fun _ => none, gzOpen := true, dopen := true,
    indexBytes := some exIdx, scan := fun _ => some 4096 }

/-- World after the compressed file has been replaced: the size cache still
holds 100 under the basename key, while a fresh scan would give 5000 more
bytes past the last indexed offset. -/
def exWorldC2new : GzWorld :=
  { sizeCache := fun b => if b = pData then some 100 else none, gzOpen := true,
    dopen := true, indexBytes := some exIdx, scan := fun _ => some 5000 }

/-- The replaced-file world with the cache entry removed, exposing what a
recomputation would return. -/
def exWorldC2newFresh : GzWorld :=
  { exWorldC2new with sizeCache := fun _ => none }

/-- A world whose index file cannot be opened but whose stream would scan to
42 bytes from offset 0. -/
def exWorldC3 : GzWorld :=
  { sizeCache := fun _ => none, gzOpen := true, dopen := true,
    indexBytes := none, scan := fun _ => some 42 }

/-- A concrete `fstatat` oracle for the getattr witness: "data" is absent
with ENOENT while "data.gz" and "data.gz.gzi" exist. -/
def exStat : Path → Except Nat Stat := fun q =>
  if q = pData ++ dotGz then .ok ⟨77, 420, 5⟩
  else if q = pData ++ dotGz ++ dotGzi then .ok ⟨9, 420, 5⟩
  else .error 2

/-- A concrete open world taking the synthesized branch. -/
def exOpenWorld : OpenWorld :=
  { statRes := .error 2, needRes := true, gzOpenFd := some 7,
    dopenRes := some 1, rawOpenFd := .ok 5 }

/-- The handle produced by `fuse_bgzip_open` on `exOpenWorld`. -/
def exFile : file := { fh := some 1, fd := -1 }

/-- Concrete bgzf call outcomes: seek succeeds, read delivers 10 bytes. -/
def exOps : BgzfOps := { useekRet := 0, useekErrno := 0, readRet := 10, readErrno := 0 }

/-! Helper lemmas about the suffix arithmetic of `stripCandidate`. -/

theorem append_gz_ne_append_gzi (P u : Path) : P ++ dotGz ≠ u ++ dotGzi := by
  intro h
  have hl : P.length + 3 = u.length + 4 := by
    have hlen := congrArg List.length h
    simpa [dotGz, dotGzi] using hlen
  have h2 := congrArg (fun l => l.getD (P.length + 2) 'x') h
  simp only at h2
  rw [List.getD_append_right P dotGz 'x' _ (by omega),
      List.getD_append_right u dotGzi 'x' _ (by omega)] at h2
  have e1 : P.length + 2 - P.length = 2 := by omega
  have e2 : P.length + 2 - u.length = 3 := by omega
  rw [e1, e2] at h2
  exact absurd h2 (by decide)

theorem append_gz_ne_append_gzgzi (P u : Path) : P ++ dotGz ≠ u ++ dotGzGzi := by
  intro h
  have hl : P.length + 3 = u.length + 7 := by
    have hlen := congrArg List.length h
    simpa [dotGz, dotGzGzi] using hlen
  have h2 := congrArg (fun l => l.getD (P.length + 2) 'x') h
  simp only at h2
  rw [List.getD_append_right P dotGz 'x' _ (by omega),
      List.getD_append_right u dotGzGzi 'x' _ (by omega)] at h2
  have e1 : P.length + 2 - P.length = 2 := by omega
  have e2 : P.length + 2 - u.length = 6 := by omega
  rw [e1, e2] at h2
  exact absurd h2 (by decide)

theorem strip_gzi_append_gz (P : Path) : strip_gzi (P ++ dotGz) = P ++ dotGz := by
  unfold strip_gzi
  rw [if_neg]
  rintro ⟨-, h2⟩
  have h3 : (P ++ dotGz).take ((P ++ dotGz).length - 4) ++ dotGzi = P ++ dotGz := by
    rw [← h2]
    exact List.take_append_drop _ _
  exact append_gz_ne_append_gzi P _ h3.symm

theorem strip_gz_append_gz (P : Path) (h : P ≠ []) : strip_gz (P ++ dotGz) = P := by
  have hlen : (P ++ dotGz).length = P.length + 3 := by simp [dotGz]
  have hpos : 0 < P.length := List.length_pos.mpr h
  have hidx : (P ++ dotGz).length - 3 = P.length := by omega
  have hc : 3 < (P ++ dotGz).length ∧ (P ++ dotGz).drop ((P ++ dotGz).length - 3) = dotGz := by
    refine ⟨by omega, ?_⟩
    rw [hidx]
    exact List.drop_left P dotGz
  unfold strip_gz
  rw [if_pos hc, hidx]
  exact List.take_left P dotGz

theorem strip_gzi_append_gzi (Q : Path) (h : Q ≠ []) : strip_gzi (Q ++ dotGzi) = Q := by
  have hlen : (Q ++ dotGzi).length = Q.length + 4 := by simp [dotGzi]
  have hpos : 0 < Q.length := List.length_pos.mpr h
  have hidx : (Q ++ dotGzi).length - 4 = Q.length := by omega
  have hc : 4 < (Q ++ dotGzi).length ∧ (Q ++ dotGzi).drop ((Q ++ dotGzi).length - 4) = dotGzi := by
    refine ⟨by omega, ?_⟩
    rw [hidx]
    exact List.drop_left Q dotGzi
  unfold strip_gzi
  rw [if_pos hc, hidx]
  exact List.take_left Q dotGzi

theorem stripCandidate_append_gz (P : Path) (h : P ≠ []) :
    stripCandidate (P ++ dotGz) = P := by
  unfold stripCandidate
  rw [strip_gzi_append_gz, strip_gz_append_gz P h]

theorem stripCandidate_append_gz_gzi (P : Path) (h : P ≠ []) :
    stripCandidate (P ++ dotGz ++ dotGzi) = P := by
  unfold stripCandidate
  rw [strip_gzi_append_gzi (P ++ dotGz) (by simp [dotGz]), strip_gz_append_gz P h]

theorem ne_append_gz (P : Path) : P ++ dotGz ≠ P := by
  intro h
  have := congrArg List.length h
  simp [dotGz] at this

theorem ne_append_gz_gzi (P : Path) : P ++ dotGz ++ dotGzi ≠ P := by
  intro h
  have := congrArg List.length h
  simp [dotGz, dotGzi] at this

theorem ne_append_gz_gzi_gz (P : Path) : P ++ dotGz ++ dotGzi ≠ P ++ dotGz := by
  intro h
  have := congrArg List.length h
  simp [dotGz, dotGzi] at this

theorem append_gz_gzi_eq (P : Path) : P ++ dotGz ++ dotGzi = P ++ dotGzGzi := by
  rw [List.append_assoc]
  rfl

/-! Helper lemmas about `need_bgzip_uncompress` and the cache. -/

theorem need_miss_congr (fs : Path → Bool) (a b : Path)
    (h : stripCandidate a = stripCandidate b) : need_miss fs a = need_miss fs b := by
  unfold need_miss
  rw [h]

theorem need_empty_cache (fs : Path → Bool) (file : Path) :
    need_bgzip_uncompress fs [] file =
      ⟨(need_miss fs file).1, [(file, (need_miss fs file).1)], (need_miss fs file).2, 1⟩ :=
  rfl

theorem tdb_fetch_nil (file : Path) : tdb_fetch [] file = none := rfl

theorem tdb_fetch_cons_ne (k : Path) (v : Bool) (t : Tdb) (file : Path) (h : file ≠ k) :
    tdb_fetch ((k, v) :: t) file = tdb_fetch t file := by
  unfold tdb_fetch
  rw [List.lookup, show (file == k) = false from beq_eq_false_iff_ne.mpr h]

theorem need_fetch_none (fs : Path → Bool) (t : Tdb) (file : Path)
    (h : tdb_fetch t file = none) :
    need_bgzip_uncompress fs t file =
      ⟨(need_miss fs file).1, (file, (need_miss fs file).1) :: t, (need_miss fs file).2, 1⟩ := by
  unfold need_bgzip_uncompress
  rw [h]
  rfl

theorem need_cons_self (fs : Path → Bool) (k : Path) (v : Bool) (t : Tdb) :
    need_bgzip_uncompress fs ((k, v) :: t) k = ⟨v, (k, v) :: t, 0, 0⟩ := by
  unfold need_bgzip_uncompress tdb_fetch
  rw [List.lookup, show (k == k) = true from beq_self_eq_true k]

/-! Helper lemmas about the serialized index file. -/

theorem le64_length (x : Nat) : (le64 x).length = 8 := rfl

theorem serializeRecord_length (r : Nat × Nat) : (serializeRecord r).length = 16 := rfl

theorem flatRecords_cons (r : Nat × Nat) (rs : List (Nat × Nat)) :
    flatRecords (r :: rs) = serializeRecord r ++ flatRecords rs := rfl

theorem flatRecords_length (rs : List (Nat × Nat)) :
    (flatRecords rs).length = 16 * rs.length := by
  induction rs with
  | nil => rfl
  | cons r rest ih =>
    rw [flatRecords_cons, List.length_append, serializeRecord_length, ih,
        List.length_cons]
    ring

theorem serializeIndex_length (n : Nat) (rs : List (Nat × Nat)) :
    (serializeIndex n rs).length = 8 + 16 * rs.length := by
  unfold serializeIndex
  rw [List.length_append, le64_length, flatRecords_length]

theorem le64_getD (x i : Nat) (h : i < 8) : (le64 x).getD i 0 = u64byte x i := by
  interval_cases i <;> rfl

theorem flatRecords_getD (rs : List (Nat × Nat)) :
    ∀ q i : Nat, q < rs.length → i < 8 →
      (flatRecords rs).getD (16 * q + 8 + i) 0 = u64byte (rs.getD q (0, 0)).2 i := by
  induction rs with
  | nil =>
    intro q i hq _
    simp at hq
  | cons r rest ih =>
    intro q i hq hi
    cases q with
    | zero =>
      rw [flatRecords_cons,
          List.getD_append _ _ _ _ (by rw [serializeRecord_length]; omega)]
      unfold serializeRecord
      rw [List.getD_append_right _ _ _ _ (by rw [le64_length]; omega)]
      have hidx : 16 * 0 + 8 + i - (le64 r.1).length = i := by rw [le64_length]; omega
      rw [hidx, le64_getD _ _ hi]
      rfl
    | succ q' =>
      rw [flatRecords_cons,
          List.getD_append_right _ _ _ _ (by rw [serializeRecord_length]; omega)]
      have hidx : 16 * (q' + 1) + 8 + i - (serializeRecord r).length = 16 * q' + 8 + i := by
        rw [serializeRecord_length]; omega
      rw [hidx, ih q' i (by simpa using Nat.lt_of_succ_lt_succ (by simpa using hq)) hi]
      rfl

theorem preadU64_serializeIndex_count (n : Nat) (rs : List (Nat × Nat))
    (h : n < 2 ^ 64) : preadU64 (serializeIndex n rs) 0 0 = n := by
  have hb : ∀ i, i < 8 → preadByte (serializeIndex n rs) 0 0 i = u64byte n i % 256 := by
    intro i hi
    unfold preadByte
    rw [if_pos (by rw [serializeIndex_length]; omega)]
    have h0 : 0 + i = i := by omega
    rw [h0]
    show (le64 n ++ flatRecords rs).getD i 0 % 256 = u64byte n i % 256
    rw [List.getD_append _ _ _ _ (by rw [le64_length]; omega), le64_getD _ _ hi]
  unfold preadU64
  rw [hb 0 (by omega), hb 1 (by omega), hb 2 (by omega), hb 3 (by omega),
      hb 4 (by omega), hb 5 (by omega), hb 6 (by omega), hb 7 (by omega)]
  unfold u64byte
  norm_num
  omega

theorem gzi_start_pos_serializeIndex (n : Nat) (rs : List (Nat × Nat))
    (h1 : 1 ≤ n) (h64 : n < 2 ^ 64) (hlen : rs.length = n + 1) :
    gzi_start_pos (serializeIndex n rs) = (rs.getD (n - 1) (0, 0)).2 % 2 ^ 64 := by
  unfold gzi_start_pos
  rw [preadU64_serializeIndex_count n rs h64]
  have hb : ∀ i, i < 8 → preadByte (serializeIndex n rs) n (n * 16) i
      = u64byte (rs.getD (n - 1) (0, 0)).2 i % 256 := by
    intro i hi
    unfold preadByte
    rw [if_pos (by rw [serializeIndex_length, hlen]; omega)]
    show (le64 n ++ flatRecords rs).getD (n * 16 + i) 0 % 256 = _
    rw [List.getD_append_right _ _ _ _ (by rw [le64_length]; omega)]
    have hidx : n * 16 + i - (le64 n).length = 16 * (n - 1) + 8 + i := by
      rw [le64_length]; omega
    rw [hidx, flatRecords_getD rs (n - 1) i (by rw [hlen]; omega) hi]
  unfold preadU64
  rw [hb 0 (by omega), hb 1 (by omega), hb 2 (by omega), hb 3 (by omega),
      hb 4 (by omega), hb 5 (by omega), hb 6 (by omega), hb 7 (by omega)]
  unfold u64byte
  norm_num
  omega

theorem no_gzgzi_suffix_gz (P : Path) :
    ¬(7 < (P ++ dotGz).length ∧
      (P ++ dotGz).drop ((P ++ dotGz).length - 7) = dotGzGzi) := by
  rintro ⟨-, h2⟩
  have h3 : (P ++ dotGz).take ((P ++ dotGz).length - 7) ++ dotGzGzi = P ++ dotGz := by
    rw [← h2]
    exact List.take_append_drop _ _
  exact append_gz_ne_append_gzgzi P _ h3.symm

theorem gzgzi_suffix_drop (P : Path) (h : P ≠ []) :
    (7 < (P ++ dotGz ++ dotGzi).length ∧
      (P ++ dotGz ++ dotGzi).drop ((P ++ dotGz ++ dotGzi).length - 7) = dotGzGzi) ∧
    (P ++ dotGz ++ dotGzi).take ((P ++ dotGz ++ dotGzi).length - 7) = P := by
  have he : P ++ dotGz ++ dotGzi = P ++ dotGzGzi := append_gz_gzi_eq P
  have hlen : (P ++ dotGz ++ dotGzi).length = P.length + 7 := by simp [dotGz, dotGzi]
  have hpos : 0 < P.length := List.length_pos.mpr h
  have hidx : (P ++ dotGz ++ dotGzi).length - 7 = P.length := by omega
  refine ⟨⟨by omega, ?_⟩, ?_⟩
  · rw [hidx, he]
    exact List.drop_left P dotGzGzi
  · rw [hidx, he]
    exact List.take_left P dotGzGzi

/-! The claims. -/

/-- C1, counterexample: for the index file with count field 3 whose four
records end in {compressed 9000, uncompressed 50000}, the size-resolution
path seeks the decompressing stream to uncompressed offset 30000 (the
second field of record 2), not to 50000 as the claim states. -/
theorem C1_seek_target_counterexample :
    (get_unzipped_size exWorldC1 pData).2 = some 30000 ∧ (30000 : Nat) ≠ 50000 :=
  ⟨by decide, by decide⟩

/-- C1, amended: on a size-cache miss with the compressed file and stream
open and an index file laid out as an 8-byte count `n` followed by `n + 1`
16-byte records, `get_unzipped_size` reads the 8 bytes at byte offset
`16 * n` — the uncompressed-offset field of record `n - 1`, the
second-to-last record — and seeks the decompressing stream to that value
before scanning. -/
theorem C1_seek_target_amended (w : GzWorld) (path : Path) (n : Nat)
    (rs : List (Nat × Nat)) (hc : w.sizeCache (basename path) = none)
    (hgz : w.gzOpen = true) (hdo : w.dopen = true)
    (hidx : w.indexBytes = some (serializeIndex n rs))
    (h1 : 1 ≤ n) (h64 : n < 2 ^ 64) (hlen : rs.length = n + 1) :
    (get_unzipped_size w path).2 = some ((rs.getD (n - 1) (0, 0)).2 % 2 ^ 64) := by
  unfold get_unzipped_size
  rw [hc, hgz, hdo, hidx]
  rw [if_neg (by simp), if_neg (by simp)]
  dsimp only
  rw [gzi_start_pos_serializeIndex n rs h1 h64 hlen]
  cases hs : w.scan ((rs.getD (n - 1) (0, 0)).2 % 2 ^ 64) <;> simp [hs]

/-- C1 witness: the amended theorem applied to the concrete world of the
counterexample scenario. -/
theorem C1_seek_target_amended_witness :
    exWorldC1.sizeCache (basename pData) = none ∧
    exWorldC1.indexBytes =
      some (serializeIndex 3 [(0, 0), (3000, 10000), (6000, 30000), (9000, 50000)]) ∧
    (get_unzipped_size exWorldC1 pData).2 =
      some (([((0 : Nat), (0 : Nat)), (3000, 10000), (6000, 30000),
        (9000, 50000)].getD (3 - 1) (0, 0)).2 % 2 ^ 64) :=
  ⟨rfl, rfl,
    C1_seek_target_amended exWorldC1 pData 3
      [(0, 0), (3000, 10000), (6000, 30000), (9000, 50000)]
      rfl rfl rfl rfl (by decide) (by decide) (by decide)⟩

/-- C2, counterexample: the size cache file is named by the basename alone,
so after the backing compressed file is replaced (here the fresh
recomputation would yield 35000) the old entry under the same basename is
still hit and the stale size 100 is returned — the size is not recomputed. -/
theorem C2_size_cache_key_counterexample :
    get_unzipped_size exWorldC2new pData = (100, none) ∧
    get_unzipped_size exWorldC2newFresh pData = (35000, some 30000) ∧
    (100 : Nat) ≠ 35000 :=
  ⟨by decide, by decide, by decide⟩

/-- C2, amended: the size cache is keyed by the basename of the logical
path alone: whenever the cache holds a value under `basename path`, that
value is returned with no further check — independent of the current
physical compressed file, of the index, and of the stream contents. -/
theorem C2_size_cache_key_amended (w : GzWorld) (path : Path) (v : Nat)
    (h : w.sizeCache (basename path) = some v) :
    get_unzipped_size w path = (v, none) := by
  unfold get_unzipped_size
  rw [h]

/-- C2 witness: the amended theorem at the concrete replaced-file world. -/
theorem C2_size_cache_key_amended_witness :
    exWorldC2new.sizeCache (basename pData) = some 100 ∧
    get_unzipped_size exWorldC2new pData = (100, none) :=
  ⟨by decide, C2_size_cache_key_amended exWorldC2new pData 100 (by decide)⟩

/-- C3, counterexample: with the index file unavailable (its `open` fails)
and a stream that a full scan from offset 0 would measure at 42 bytes,
`get_unzipped_size` performs no scan at all and returns 0 ("could not be
determined") instead of the correct size 42. -/
theorem C3_index_missing_counterexample :
    get_unzipped_size exWorldC3 pData = (0, none) ∧
    exWorldC3.scan 0 = some 42 ∧ (0 : Nat) ≠ 0 + 42 :=
  ⟨by decide, rfl, by decide⟩

/-- C3, amended: on a size-cache miss, if the cached index file cannot be
opened, size resolution returns 0 (size unknown) immediately: it does not
fall back to a full scan, and no seek is issued. -/
theorem C3_index_missing_amended (w : GzWorld) (path : Path)
    (hc : w.sizeCache (basename path) = none) (hidx : w.indexBytes = none) :
    get_unzipped_size w path = (0, none) := by
  unfold get_unzipped_size
  rw [hc]
  cases hg : w.gzOpen <;> cases hd : w.dopen <;> simp [hg, hd, hidx]

/-- C3 witness: the amended theorem at the concrete world. -/
theorem C3_index_missing_amended_witness :
    exWorldC3.sizeCache (basename pData) = none ∧ exWorldC3.indexBytes = none ∧
    get_unzipped_size exWorldC3 pData = (0, none) :=
  ⟨rfl, rfl, C3_index_missing_amended exWorldC3 pData rfl rfl⟩

/-- C4: on a decision-cache miss, `need_bgzip_uncompress` strips at most one
trailing ".gzi" and then at most one trailing ".gz" to obtain the candidate
name, and returns true exactly when the stripped name does not exist, the
stripped name plus ".gz" exists, and the stripped name plus ".gz.gzi"
exists; probe failure is just "does not exist" and the function is total. -/
theorem C4_need_verdict (fs : Path → Bool) (t : Tdb) (file : Path)
    (hmiss : tdb_fetch t file = none) :
    (need_bgzip_uncompress fs t file).verdict = true ↔
      (fs (stripCandidate file) = false ∧ fs (stripCandidate file ++ dotGz) = true ∧
        fs (stripCandidate file ++ dotGz ++ dotGzi) = true) := by
  rw [need_fetch_none fs t file hmiss]
  unfold need_miss
  simp only [List.append_assoc]
  by_cases h1 : fs (stripCandidate file) <;>
    by_cases h2 : fs (stripCandidate file ++ dotGz) <;>
      by_cases h3 : fs (stripCandidate file ++ (dotGz ++ dotGzi)) <;>
        simp [h1, h2, h3]

/-- C4 witness: the verdict equivalence evaluated on the concrete backing
store where only "data.gz" and "data.gz.gzi" exist. -/
theorem C4_need_verdict_witness :
    tdb_fetch [] pData = none ∧
      ((need_bgzip_uncompress exFs [] pData).verdict = true ↔
        (exFs (stripCandidate pData) = false ∧
          exFs (stripCandidate pData ++ dotGz) = true ∧
          exFs (stripCandidate pData ++ dotGz ++ dotGzi) = true)) :=
  ⟨rfl, C4_need_verdict exFs [] pData rfl⟩

/-- C5: when `P` does not exist but `P.gz` and `P.gz.gzi` both do,
`need_bgzip_uncompress P` is true and a listing of the directory holding
exactly the two physical entries yields the logical name `P` exactly once
(in either enumeration order): the logical name is emitted only while
iterating the index entry, the data entry is suppressed, and neither
physical name appears. -/
theorem C5_readdir_merge (fs : Path → Bool) (P : Path) (hne : P ≠ [])
    (hP : stripCandidate P = P) (h1 : fs P = false)
    (h2 : fs (P ++ dotGz) = true) (h3 : fs (P ++ dotGz ++ dotGzi) = true) :
    (need_bgzip_uncompress fs [] P).verdict = true ∧
    (fuse_bgzip_readdir fs [] ['.'] [P ++ dotGz, P ++ dotGz ++ dotGzi]).1 = [P] ∧
    (fuse_bgzip_readdir fs [] ['.'] [P ++ dotGz ++ dotGzi, P ++ dotGz]).1 = [P] ∧
    ((fuse_bgzip_readdir fs [] ['.'] [P ++ dotGz, P ++ dotGz ++ dotGzi]).1).count P = 1 ∧
    P ++ dotGz ∉ (fuse_bgzip_readdir fs [] ['.'] [P ++ dotGz, P ++ dotGz ++ dotGzi]).1 ∧
    P ++ dotGz ++ dotGzi ∉
      (fuse_bgzip_readdir fs [] ['.'] [P ++ dotGz, P ++ dotGz ++ dotGzi]).1 := by
  have hv : need_miss fs P = (true, 3) := by
    unfold need_miss
    rw [hP]
    simp [h1, h2, h3, ← List.append_assoc]
  have m1 : need_miss fs (P ++ dotGz) = (true, 3) := by
    rw [need_miss_congr fs _ P (by rw [stripCandidate_append_gz P hne, hP]), hv]
  have m2 : need_miss fs (P ++ dotGz ++ dotGzi) = (true, 3) := by
    rw [need_miss_congr fs _ P (by rw [stripCandidate_append_gz_gzi P hne, hP]), hv]
  have hsuf := gzgzi_suffix_drop P hne
  have hfold1 :
      (fuse_bgzip_readdir fs [] ['.'] [P ++ dotGz, P ++ dotGz ++ dotGzi]).1 = [P] := by
    unfold fuse_bgzip_readdir
    rw [List.foldl_cons, List.foldl_cons, List.foldl_nil]
    dsimp only
    rw [if_pos rfl, if_pos rfl]
    rw [need_empty_cache, m1]
    dsimp only
    rw [if_pos rfl, if_neg (no_gzgzi_suffix_gz P)]
    rw [need_fetch_none fs _ (P ++ dotGz ++ dotGzi)
        (by rw [tdb_fetch_cons_ne _ _ _ _ (ne_append_gz_gzi_gz P)]; rfl), m2]
    dsimp only
    rw [if_pos rfl, if_pos hsuf.1, hsuf.2]
    rfl
  have hfold2 :
      (fuse_bgzip_readdir fs [] ['.'] [P ++ dotGz ++ dotGzi, P ++ dotGz]).1 = [P] := by
    unfold fuse_bgzip_readdir
    rw [List.foldl_cons, List.foldl_cons, List.foldl_nil]
    dsimp only
    rw [if_pos rfl, if_pos rfl]
    rw [need_empty_cache, m2]
    dsimp only
    rw [if_pos rfl, if_pos hsuf.1, hsuf.2]
    rw [need_fetch_none fs _ (P ++ dotGz)
        (by rw [tdb_fetch_cons_ne _ _ _ _ (ne_append_gz_gzi_gz P).symm]; rfl), m1]
    dsimp only
    rw [if_pos rfl, if_neg (no_gzgzi_suffix_gz P)]
    rfl
  refine ⟨?_, hfold1, hfold2, ?_, ?_, ?_⟩
  · rw [need_empty_cache, hv]
  · rw [hfold1]
    simp
  · rw [hfold1]
    simp only [List.mem_singleton]
    exact ne_append_gz P
  · rw [hfold1]
    simp only [List.mem_singleton]
    exact ne_append_gz_gzi P

/-- C5 witness: the directory-merge theorem evaluated on the concrete
backing store where only "data.gz" and "data.gz.gzi" exist. -/
theorem C5_readdir_merge_witness :
    pData ≠ [] ∧ stripCandidate pData = pData ∧ exFs pData = false ∧
    exFs (pData ++ dotGz) = true ∧ exFs (pData ++ dotGz ++ dotGzi) = true ∧
    ((need_bgzip_uncompress exFs [] pData).verdict = true ∧
      (fuse_bgzip_readdir exFs [] ['.']
        [pData ++ dotGz, pData ++ dotGz ++ dotGzi]).1 = [pData] ∧
      (fuse_bgzip_readdir exFs [] ['.']
        [pData ++ dotGz ++ dotGzi, pData ++ dotGz]).1 = [pData] ∧
      ((fuse_bgzip_readdir exFs [] ['.']
        [pData ++ dotGz, pData ++ dotGz ++ dotGzi]).1).count pData = 1 ∧
      pData ++ dotGz ∉ (fuse_bgzip_readdir exFs [] ['.']
        [pData ++ dotGz, pData ++ dotGz ++ dotGzi]).1 ∧
      pData ++ dotGz ++ dotGzi ∉ (fuse_bgzip_readdir exFs [] ['.']
        [pData ++ dotGz, pData ++ dotGz ++ dotGzi]).1) :=
  ⟨by decide, by decide, by decide, by decide, by decide,
    C5_readdir_merge exFs pData (by decide) (by decide) (by decide) (by decide)
      (by decide)⟩

/-- C7: querying `need_bgzip_uncompress` twice in a row with the same path
gives the same verdict, the second call issues no backing-store probe and
no store, and it leaves the cache unchanged; a missing key is stored
exactly once, keyed by the original unstripped path, while a hit stores
nothing. -/
theorem C7_need_idempotent (fs : Path → Bool) (t : Tdb) (file : Path) :
    (need_bgzip_uncompress fs (need_bgzip_uncompress fs t file).cache file).verdict
        = (need_bgzip_uncompress fs t file).verdict ∧
    (need_bgzip_uncompress fs (need_bgzip_uncompress fs t file).cache file).probes = 0 ∧
    (need_bgzip_uncompress fs (need_bgzip_uncompress fs t file).cache file).stores = 0 ∧
    (need_bgzip_uncompress fs (need_bgzip_uncompress fs t file).cache file).cache
        = (need_bgzip_uncompress fs t file).cache ∧
    (tdb_fetch t file = none →
      (need_bgzip_uncompress fs t file).stores = 1 ∧
      (need_bgzip_uncompress fs t file).cache
        = (file, (need_bgzip_uncompress fs t file).verdict) :: t) ∧
    (tdb_fetch t file ≠ none →
      (need_bgzip_uncompress fs t file).stores = 0 ∧
      (need_bgzip_uncompress fs t file).cache = t) := by
  cases hf : tdb_fetch t file with
  | none => simp [need_fetch_none fs t file hf, need_cons_self, hf]
  | some v =>
    have h1 : need_bgzip_uncompress fs t file = ⟨v, t, 0, 0⟩ := by
      unfold need_bgzip_uncompress
      rw [hf]
    simp [h1, hf]

/-- C7 witness: the idempotence statement at a concrete store, empty cache
and concrete path. -/
theorem C7_need_idempotent_witness :
    (need_bgzip_uncompress exFs (need_bgzip_uncompress exFs [] pData).cache pData).verdict
        = (need_bgzip_uncompress exFs [] pData).verdict ∧
    (need_bgzip_uncompress exFs (need_bgzip_uncompress exFs [] pData).cache pData).probes = 0 ∧
    (need_bgzip_uncompress exFs (need_bgzip_uncompress exFs [] pData).cache pData).stores = 0 ∧
    (need_bgzip_uncompress exFs (need_bgzip_uncompress exFs [] pData).cache pData).cache
        = (need_bgzip_uncompress exFs [] pData).cache ∧
    (tdb_fetch [] pData = none →
      (need_bgzip_uncompress exFs [] pData).stores = 1 ∧
      (need_bgzip_uncompress exFs [] pData).cache
        = (pData, (need_bgzip_uncompress exFs [] pData).verdict) :: []) ∧
    (tdb_fetch [] pData ≠ none →
      (need_bgzip_uncompress exFs [] pData).stores = 0 ∧
      (need_bgzip_uncompress exFs [] pData).cache = []) :=
  C7_need_idempotent exFs [] pData

/-- C9: for a logical path `P` (no trailing container suffix, so that
stripping leaves it unchanged), the three queries `P`, `P ++ ".gz"` and
`P ++ ".gz.gzi"`, issued in sequence against an initially empty cache,
strip to the same candidate name and all return the same verdict, each
cached under its own original key. -/
theorem C9_suffix_invariance (fs : Path → Bool) (P : Path) (hne : P ≠ [])
    (hP : stripCandidate P = P) :
    stripCandidate (P ++ dotGz) = P ∧
    stripCandidate (P ++ dotGz ++ dotGzi) = P ∧
    (need_bgzip_uncompress fs ((need_bgzip_uncompress fs [] P).cache)
        (P ++ dotGz)).verdict = (need_bgzip_uncompress fs [] P).verdict ∧
    (need_bgzip_uncompress fs
        ((need_bgzip_uncompress fs ((need_bgzip_uncompress fs [] P).cache)
          (P ++ dotGz)).cache) (P ++ dotGz ++ dotGzi)).verdict
        = (need_bgzip_uncompress fs [] P).verdict := by
  have m1 : need_miss fs (P ++ dotGz) = need_miss fs P :=
    need_miss_congr fs _ _ (by rw [stripCandidate_append_gz P hne, hP])
  have m2 : need_miss fs (P ++ dotGz ++ dotGzi) = need_miss fs P :=
    need_miss_congr fs _ _ (by rw [stripCandidate_append_gz_gzi P hne, hP])
  refine ⟨stripCandidate_append_gz P hne, stripCandidate_append_gz_gzi P hne, ?_, ?_⟩
  · rw [need_empty_cache]
    dsimp only
    rw [need_fetch_none fs _ (P ++ dotGz)
        (by rw [tdb_fetch_cons_ne _ _ _ _ (ne_append_gz P)]; rfl), m1]
  · rw [need_empty_cache]
    dsimp only
    rw [need_fetch_none fs _ (P ++ dotGz)
        (by rw [tdb_fetch_cons_ne _ _ _ _ (ne_append_gz P)]; rfl), m1]
    dsimp only
    rw [need_fetch_none fs _ (P ++ dotGz ++ dotGzi)
        (by rw [tdb_fetch_cons_ne _ _ _ _ (ne_append_gz_gzi_gz P),
                tdb_fetch_cons_ne _ _ _ _ (ne_append_gz_gzi P)]; rfl), m2]

/-- C9 witness: the invariance statement for the concrete path "data" on the
concrete backing store. -/
theorem C9_suffix_invariance_witness :
    pData ≠ [] ∧ stripCandidate pData = pData ∧
    (stripCandidate (pData ++ dotGz) = pData ∧
      stripCandidate (pData ++ dotGz ++ dotGzi) = pData ∧
      (need_bgzip_uncompress exFs ((need_bgzip_uncompress exFs [] pData).cache)
          (pData ++ dotGz)).verdict = (need_bgzip_uncompress exFs [] pData).verdict ∧
      (need_bgzip_uncompress exFs
          ((need_bgzip_uncompress exFs ((need_bgzip_uncompress exFs [] pData).cache)
            (pData ++ dotGz)).cache) (pData ++ dotGz ++ dotGzi)).verdict
          = (need_bgzip_uncompress exFs [] pData).verdict) :=
  ⟨by decide, by decide,
    C9_suffix_invariance exFs pData (by decide) (by decide)⟩

/-- C6: when the direct lookup of `p` fails with ENOENT and the decision
cache says synthesis applies, `fuse_bgzip_getattr` answers from the
metadata of `p ++ ".gz"` with the size field replaced by the resolved
uncompressed size; an error from that second stat is propagated as-is; and
when size resolution fails (`get_unzipped_size` returns 0) the call still
succeeds, reporting size 0. -/
theorem C6_getattr_synth (st : Path → Except Nat Stat) (gus : Path → Nat) (t : Tdb)
    (p : Path) (e2 : Nat) (s2 : Stat)
    (hslash : p.head? ≠ some '/')
    (hstat : st p = .error ENOENT)
    (hneed : (need_bgzip_uncompress (fun q => statOk (st q)) t p).verdict = true) :
    (st (p ++ dotGz) = .error e2 → (fuse_bgzip_getattr st gus t p).1 = .error e2) ∧
    (st (p ++ dotGz) = .ok s2 →
      (fuse_bgzip_getattr st gus t p).1 = .ok { s2 with st_size := gus p }) ∧
    (st (p ++ dotGz) = .ok s2 →
      (fuse_bgzip_getattr st (fun _ => 0) t p).1 = .ok { s2 with st_size := 0 }) := by
  have hpath : (if p.head? = some '/' then p.tail else p) = p := by
    rw [if_neg hslash]
  refine ⟨?_, ?_, ?_⟩ <;> intro hx <;>
  · unfold fuse_bgzip_getattr
    dsimp only
    rw [hpath, hstat]
    dsimp only
    rw [if_pos rfl, if_pos hneed, hx]

/-- C6 witness: the getattr theorem evaluated on the concrete oracle where
"data" is missing, "data.gz" carries size 77 and mode 420, and size
resolution yields 12345. -/
theorem C6_getattr_synth_witness :
    pData.head? ≠ some '/' ∧ exStat pData = .error ENOENT ∧
    (need_bgzip_uncompress (fun q => statOk (exStat q)) [] pData).verdict = true ∧
    ((exStat (pData ++ dotGz) = .error 13 →
        (fuse_bgzip_getattr exStat (fun _ => 12345) [] pData).1 = .error 13) ∧
      (exStat (pData ++ dotGz) = .ok ⟨77, 420, 5⟩ →
        (fuse_bgzip_getattr exStat (fun _ => 12345) [] pData).1 =
          .ok { st_size := 12345, st_mode := 420, st_mtime := 5 }) ∧
      (exStat (pData ++ dotGz) = .ok ⟨77, 420, 5⟩ →
        (fuse_bgzip_getattr exStat (fun _ => 0) [] pData).1 =
          .ok { st_size := 0, st_mode := 420, st_mtime := 5 })) :=
  ⟨by decide, rfl, by decide,
    C6_getattr_synth exStat (fun _ => 12345) [] pData 13 ⟨77, 420, 5⟩
      (by decide) rfl (by decide)⟩

/-- C8: on a handle wrapping a decompressing stream, `fuse_bgzip_read`
surfaces a seek failure as the negated errno without retrying; after a
successful seek it surfaces a read failure the same way, and otherwise
returns the byte count obtained by the single `bgzf_read` call as-is
(including short reads). -/
theorem C8_read_error_paths (f : file) (o : BgzfOps) (pr : Int) (pe : Nat)
    (hs : f.fh.isSome = true) :
    (o.useekRet = -1 → fuse_bgzip_read f o pr pe = -(o.useekErrno : Int)) ∧
    (o.useekRet ≠ -1 → o.readRet = -1 → fuse_bgzip_read f o pr pe = -(o.readErrno : Int)) ∧
    (o.useekRet ≠ -1 → o.readRet ≠ -1 → fuse_bgzip_read f o pr pe = o.readRet) := by
  unfold fuse_bgzip_read bgzf_read_result
  rw [hs]
  refine ⟨?_, ?_, ?_⟩
  · intro h
    simp [h]
  · intro h h2
    simp [h, h2]
  · intro h h2
    simp [h, h2]

/-- C8 witness: the read theorem at a concrete decompressing handle whose
seek succeeds and whose read returns a short count of 10. -/
theorem C8_read_error_paths_witness :
    exFile.fh.isSome = true ∧
    ((exOps.useekRet = -1 → fuse_bgzip_read exFile exOps 0 0 = -(exOps.useekErrno : Int)) ∧
      (exOps.useekRet ≠ -1 → exOps.readRet = -1 →
        fuse_bgzip_read exFile exOps 0 0 = -(exOps.readErrno : Int)) ∧
      (exOps.useekRet ≠ -1 → exOps.readRet ≠ -1 →
        fuse_bgzip_read exFile exOps 0 0 = exOps.readRet)) :=
  ⟨by decide, C8_read_error_paths exFile exOps 0 0 (by decide)⟩

/-- C10: every handle a successful `fuse_bgzip_open` returns has exactly one
variant active — a stream with the raw descriptor left at -1, or no stream
and a valid (non-negative) descriptor — and both `fuse_bgzip_read` and
`fuse_bgzip_release` dispatch on the stream field, so the release closes
exactly the one active resource and a read never mixes the two paths. -/
theorem C10_handle_invariant (w : OpenWorld) (f : file) (o : BgzfOps)
    (pr : Int) (pe : Nat) (h : fuse_bgzip_open w = .ok f) :
    ((f.fh.isSome = true ∧ f.fd = -1) ∨ (f.fh = none ∧ 0 ≤ f.fd)) ∧
    fuse_bgzip_release (some f) = (f.fh.isSome, !(f.fd == -1)) ∧
    (f.fh.isSome = true → fuse_bgzip_release (some f) = (true, false)) ∧
    (f.fh = none → fuse_bgzip_release (some f) = (false, true)) ∧
    (f.fh.isSome = true → fuse_bgzip_read f o pr pe = bgzf_read_result o) ∧
    (f.fh = none → fuse_bgzip_read f o pr pe = pread_result pr pe) := by
  have hinv : (f.fh.isSome = true ∧ f.fd = -1) ∨ (f.fh = none ∧ 0 ≤ f.fd) := by
    unfold fuse_bgzip_open at h
    dsimp only at h
    cases hst : w.statRes with
    | error e =>
      rw [hst] at h
      dsimp only at h
      by_cases hc : e = ENOENT ∧ w.needRes = true
      · rw [if_pos hc] at h
        cases hgz : w.gzOpenFd with
        | none =>
          rw [hgz] at h
          exact absurd h (by simp)
        | some fd0 =>
          rw [hgz] at h
          cases hdo : w.dopenRes with
          | none =>
            rw [hdo] at h
            exact absurd h (by simp)
          | some h0 =>
            rw [hdo] at h
            injection h with h'
            rw [← h']
            left
            exact ⟨rfl, rfl⟩
      · rw [if_neg hc] at h
        cases hro : w.rawOpenFd with
        | error e0 =>
          rw [hro] at h
          exact absurd h (by simp)
        | ok fd0 =>
          rw [hro] at h
          injection h with h'
          rw [← h']
          right
          exact ⟨rfl, Int.natCast_nonneg fd0⟩
    | ok u =>
      rw [hst] at h
      dsimp only at h
      cases hro : w.rawOpenFd with
      | error e0 =>
        rw [hro] at h
        exact absurd h (by simp)
      | ok fd0 =>
        rw [hro] at h
        injection h with h'
        rw [← h']
        right
        exact ⟨rfl, Int.natCast_nonneg fd0⟩
  refine ⟨hinv, rfl, ?_, ?_, ?_, ?_⟩
  · intro hfh
    rcases hinv with ⟨-, hfd⟩ | ⟨hnone, -⟩
    · simp [fuse_bgzip_release, hfh, hfd]
    · rw [hnone] at hfh
      exact absurd hfh (by simp)
  · intro hfh
    rcases hinv with ⟨hsome, -⟩ | ⟨-, hge⟩
    · rw [hfh] at hsome
      exact absurd hsome (by simp)
    · have hne : f.fd ≠ -1 := by omega
      simp [fuse_bgzip_release, hfh, hne]
  · intro hfh
    simp [fuse_bgzip_read, hfh]
  · intro hfh
    simp [fuse_bgzip_read, hfh]

/-- C10 witness: the handle-invariant theorem at a concrete open world
taking the synthesized branch. -/
theorem C10_handle_invariant_witness :
    fuse_bgzip_open exOpenWorld = .ok exFile ∧
    (((exFile.fh.isSome = true ∧ exFile.fd = -1) ∨
        (exFile.fh = none ∧ 0 ≤ exFile.fd)) ∧
      fuse_bgzip_release (some exFile) = (exFile.fh.isSome, !(exFile.fd == -1)) ∧
      (exFile.fh.isSome = true → fuse_bgzip_release (some exFile) = (true, false)) ∧
      (exFile.fh = none → fuse_bgzip_release (some exFile) = (false, true)) ∧
      (exFile.fh.isSome = true → fuse_bgzip_read exFile exOps 0 0 = bgzf_read_result exOps) ∧
      (exFile.fh = none → fuse_bgzip_read exFile exOps 0 0 = pread_result 0 0)) :=
  ⟨rfl, C10_handle_invariant exOpenWorld exFile exOps 0 0 rfl⟩

end FuseBgzip
